import Mathlib

/-!
Shallow embedding of the rbtools Bazaar and Mercurial SCM client adapters
(src/rbtools/clients/bazaar.py, src/rbtools/clients/mercurial.py).

Python strings are modelled as Lean `String`s (with `List Char` used
internally where positional structure matters); subprocess invocations
(`execute` / `check_install`) are modelled as oracle functions supplied as
parameters; Python exceptions are modelled with `Except ScmError`; Python
`None`-able values are modelled with `Option`.
-/

deriving instance DecidableEq for Except

namespace Rbtools

/-- Python whitespace predicate, as used by `str.strip()` and `str.split()`
(space, tab, newline, carriage return, vertical tab, form feed). -/
def isPySpace (c : Char) : Bool :=
  c = ' ' || c = '\t' || c = '\n' || c = '\r' || c = '\x0b' || c = '\x0c'

/-- Python `str.strip()` on a char list: drop leading and trailing whitespace. -/
def stripChars (cs : List Char) : List Char :=
  ((cs.dropWhile isPySpace).reverse.dropWhile isPySpace).reverse

/-- Python `str.split('\n')` on a char list (accumulator holds the current
chunk reversed). -/
def splitLines : List Char → List Char → List (List Char)
  | [], acc => [acc.reverse]
  | c :: rest, acc =>
    if c = '\n' then acc.reverse :: splitLines rest []
    else splitLines rest (c :: acc)

/-- Python `str.split('\n\n')` on a char list: split on each non-overlapping
occurrence of two consecutive newlines, scanning left to right. -/
def splitPairs : List Char → List Char → List (List Char)
  | [], acc => [acc.reverse]
  | [c], acc => [(c :: acc).reverse]
  | c :: c2 :: rest, acc =>
    if c = '\n' ∧ c2 = '\n' then acc.reverse :: splitPairs rest []
    else splitPairs (c2 :: rest) (c :: acc)

/-- Python `str.split()` (no separator): split on whitespace runs, dropping
empty chunks. -/
def pySplitWs : List Char → List Char → List (List Char)
  | [], [] => []
  | [], acc => [acc.reverse]
  | c :: rest, acc =>
    if isPySpace c then
      if acc.isEmpty then pySplitWs rest [] else acc.reverse :: pySplitWs rest []
    else pySplitWs rest (c :: acc)

/-- Python `needle in haystack` substring test. -/
def listContainsSub (needle : List Char) : List Char → Bool
  | [] => needle.isEmpty
  | c :: rest => needle.isPrefixOf (c :: rest) || listContainsSub needle rest

/-- Python `str.isdigit()` (ASCII model): non-empty and all digit characters. -/
def isDigitList (cs : List Char) : Bool :=
  !cs.isEmpty && cs.all Char.isDigit

/-- Python `int(s)` for a digit string (as filtered through `isdigit`). -/
def digitsToInt (cs : List Char) : Int :=
  Int.ofNat (cs.foldl (fun n c => 10 * n + (c.toNat - 48)) 0)

/-- Python truthiness of an optional string (`None` and `''` are falsy). -/
def pyTruthyStr : Option String → Bool
  | none => false
  | some s => !(s = "")

/-- Python `'%s' % v` for a possibly-`None` value: `None` formats as `"None"`. -/
def pyFormatOpt : Option String → String
  | some s => s
  | none => "None"

/-- Exceptions raised (or propagated) by the adapters. -/
inductive ScmError where
  /-- `TooManyRevisionsError` -/
  | tooManyRevisions
  /-- `InvalidRevisionSpecError` -/
  | invalidRevisionSpec
  /-- Python `IndexError` from indexing an empty `split()` result -/
  | indexError
  /-- Python `ValueError` from unpacking a list of the wrong length -/
  | valueError
  /-- `NotImplementedError` -/
  | notImplemented
  /-- Python `AttributeError` from calling `.group` on a failed regex match -/
  | attributeError
deriving DecidableEq

/-- `RepositoryInfo(path=..., base_path=..., supports_parent_diffs=...)`. -/
structure RepositoryInfo where
  path : String
  base_path : String
  supports_parent_diffs : Bool
deriving DecidableEq

/-! ## Mercurial `_execute` hidden-changeset shim (mercurial.py lines 44-66, 561-573) -/

/-- `MercurialClient.hidden_changesets_supported`: the probe command is run
with `none_on_ignored_error=True`; support is reported exactly when the
result is not `None`. -/
def hiddenChangesetsSupported (probeResult : Option String) : Bool :=
  probeResult.isSome

/-- The command transformation performed by `MercurialClient._execute` before
it delegates to `execute`: strip every `'--hidden'` argument when hidden
changesets are unsupported, then append the normalizing-extension
`--config` arguments. -/
def hgExecuteCmd (hiddenSupported : Bool) (hgextPath : String) (cmd : List String) : List String :=
  let cmd2 :=
    if !hiddenSupported && cmd.contains "--hidden" then
      cmd.filter (fun p => p ≠ "--hidden")
    else cmd
  cmd2 ++ ["--config", "extensions.rbtoolsnormalize=" ++ hgextPath]

/-! ## Mercurial remote-path selection and plain-mode repository info
(mercurial.py lines 87-135) -/

/-- `MercurialClient._remote_path_candidates`. -/
def remotePathCandidates : List String :=
  ["reviewboard", "origin", "parent", "default"]

/-- The candidate loop in `MercurialClient._init`: take the first candidate
whose `paths.<candidate>` key is defined in the hgrc mapping. -/
def selectRemotePathAux (hgrc : String → Option String) : List String → Option (String × String)
  | [] => none
  | cand :: rest =>
    match hgrc ("paths." ++ cand) with
    | some v => some (cand, v)
    | none => selectRemotePathAux hgrc rest

/-- The `_remote_path` computed by `MercurialClient._init` in plain (`hg`)
mode (the empty initial tuple is modelled as `none`). -/
def selectRemotePath (hgrc : String → Option String) : Option (String × String) :=
  selectRemotePathAux hgrc remotePathCandidates

/-- `MercurialClient.get_repository_info`, plain (`hg`) mode: `none` when the
tool is missing or there is no repository root; otherwise the remote path
value with `base_path = ""` when a remote path was selected, else the root
with `base_path = "/"`. -/
def hgGetRepositoryInfoPlain (installed : Bool) (hgRoot : Option String)
    (remotePath : Option (String × String)) : Option RepositoryInfo :=
  if !installed then none
  else
    match hgRoot with
    | none => none
    | some root =>
      match remotePath with
      | some rp => some ⟨rp.2, "", true⟩
      | none => some ⟨root, "/", true⟩

/-! ## Theorems for C6 and C8 -/

/-- C6: if the hidden-changeset support probe reports false (its command
returned `None`), no command issued through `_execute` contains `'--hidden'`;
when the probe reports true the command is passed through unchanged (apart
from the always-appended `--config` extension arguments). -/
theorem c6_hidden_flag_stripped :
    ∀ (probeResult : Option String) (hgextPath : String) (cmd : List String),
      (probeResult = none →
        "--hidden" ∉ hgExecuteCmd (hiddenChangesetsSupported probeResult) hgextPath cmd) ∧
      (probeResult.isSome →
        hgExecuteCmd (hiddenChangesetsSupported probeResult) hgextPath cmd =
          cmd ++ ["--config", "extensions.rbtoolsnormalize=" ++ hgextPath]) := by
  intro probeResult hgextPath cmd
  constructor
  · intro hnone hmem
    subst hnone
    simp only [hiddenChangesetsSupported, Option.isSome_none, hgExecuteCmd,
      Bool.not_false, Bool.true_and, List.mem_append] at hmem
    rcases hmem with hmem | hmem
    · by_cases hc : cmd.contains "--hidden"
      · rw [if_pos hc] at hmem
        have := List.of_mem_filter hmem
        simp at this
      · rw [if_neg hc] at hmem
        exact hc (List.elem_iff.mpr hmem)
    · have h1 : ("--hidden" : String) ≠ "--config" := by decide
      have h2 : ∀ p : String, "--hidden" ≠ "extensions.rbtoolsnormalize=" ++ p := by
        intro p h
        have hd := congrArg String.data h
        simp [String.data_append] at hd
      simp only [List.mem_cons, List.mem_singleton] at hmem
      rcases hmem with h | h | h
      · exact h1 h
      · exact h2 hgextPath h
      · exact List.not_mem_nil _ h
  · intro hsome
    have : hiddenChangesetsSupported probeResult = true := by
      simpa [hiddenChangesetsSupported] using hsome
    simp [hgExecuteCmd, this]

/-- C6 witness: with a failed probe, a concrete hidden-aware command loses its
`'--hidden'` flag. -/
theorem c6_witness :
    (none : Option String) = none ∧
      "--hidden" ∉ hgExecuteCmd (hiddenChangesetsSupported none) "/ext/hgext.py"
        ["hg", "log", "--hidden", "-r", "3"] :=
  ⟨rfl, (c6_hidden_flag_stripped none "/ext/hgext.py"
    ["hg", "log", "--hidden", "-r", "3"]).1 rfl⟩

/-- C8: the remote path is the first of `reviewboard`, `origin`, `parent`,
`default` whose `paths.<name>` key is defined; with a remote path selected,
plain-mode repository info is its value with `base_path = ""`, and with none
selected it is the repository root with `base_path = "/"`; a configuration
defining only `paths.origin = "http://x"` selects `("origin", "http://x")`. -/
theorem c8_remote_path_priority :
    (∀ (hgrc : String → Option String),
      selectRemotePath hgrc =
        (match hgrc "paths.reviewboard" with
         | some v => some ("reviewboard", v)
         | none =>
           match hgrc "paths.origin" with
           | some v => some ("origin", v)
           | none =>
             match hgrc "paths.parent" with
             | some v => some ("parent", v)
             | none =>
               match hgrc "paths.default" with
               | some v => some ("default", v)
               | none => none)) ∧
    (∀ (root : String) (rp : String × String),
      hgGetRepositoryInfoPlain true (some root) (some rp) = some ⟨rp.2, "", true⟩) ∧
    (∀ (root : String),
      hgGetRepositoryInfoPlain true (some root) none = some ⟨root, "/", true⟩) ∧
    selectRemotePath (fun k => if k = "paths.origin" then some "http://x" else none) =
      some ("origin", "http://x") := by
  refine ⟨?_, ?_, ?_, ?_⟩
  · intro hgrc
    show selectRemotePathAux hgrc ["reviewboard", "origin", "parent", "default"] = _
    simp only [selectRemotePathAux]
    rfl
  · intro root rp
    rfl
  · intro root
    rfl
  · rfl

/-! ## Revision-spec parsing (bazaar.py lines 65-144, mercurial.py lines 137-225) -/

/-- Bazaar `REVISION_SEPARATOR_REGEX.split`: split on `..` not followed by a
backslash or `/` (a failed lookahead makes the regex scan advance one
character, like the Python engine). -/
def bzrSplitAux : List Char → List Char → List String
  | [], acc => [String.mk acc.reverse]
  | ['.', '.'], acc => [String.mk acc.reverse, ""]
  | '.' :: '.' :: d :: rest2, acc =>
    if d = '\\' ∨ d = '/' then
      -- Failed lookahead: the regex engine advances one character, and
      -- neither the next position (`. d`) nor the one after (`d` is not
      -- `.`) can start a separator, so both dots are plain text.
      bzrSplitAux (d :: rest2) ('.' :: '.' :: acc)
    else String.mk acc.reverse :: bzrSplitAux (d :: rest2) []
  | c :: rest, acc => bzrSplitAux rest (c :: acc)

/-- `BazaarClient.REVISION_SEPARATOR_REGEX.split` applied to a revision token. -/
def bzrSplitRevSep (s : String) : List String :=
  bzrSplitAux s.data []

/-- Mercurial `re.split(r'\.\.|::', s)`: split on `..` or `::`, scanned left to
right with `..` tried first at each position. -/
def hgSplitAux : List Char → List Char → List String
  | [], acc => [String.mk acc.reverse]
  | '.' :: '.' :: rest, acc => String.mk acc.reverse :: hgSplitAux rest []
  | ':' :: ':' :: rest, acc => String.mk acc.reverse :: hgSplitAux rest []
  | c :: rest, acc => hgSplitAux rest (c :: acc)

/-- The Mercurial revision-range split applied to a revision token. -/
def hgSplitRevRange (s : String) : List String :=
  hgSplitAux s.data []

/-- The marker line emitted by `bzr revno` when it substitutes a parent branch
(`USING_PARENT_PREFIX` in bazaar.py). -/
def usingParentMarker : List Char :=
  "Using parent branch ".data

/-- `BazaarClient._get_revno`: the oracle `exec` yields the output of
`bzr revno [-r spec]`; one line encodes as `revno:<line>`, two lines whose
first starts with the parent-branch marker encode as
`revno:<line2>:<branch>`, and any other shape falls off the end of the
Python function, returning `None`. -/
def bzrGetRevno (exec : Option String → String) (spec : Option String) : Option String :=
  match splitLines (stripChars (exec spec).data) [] with
  | [line] => some ("revno:" ++ String.mk line)
  | [l1, l2] =>
    if usingParentMarker.isPrefixOf l1 then
      some ("revno:" ++ String.mk l2 ++ ":" ++ String.mk (l1.drop usingParentMarker.length))
    else none
  | _ => none

/-- The caller options read by `BazaarClient.parse_revision_spec`. -/
structure BzrOptions where
  parent_branch : Option String

/-- The dictionary returned by `BazaarClient.parse_revision_spec`: the `base`
and `tip` keys are always assigned (their values are the possibly-`None`
results of `_get_revno`); the `parent_base` key is optional and its value is
itself a possibly-`None` revno. -/
structure BzrRevisionSpec where
  base : Option String
  tip : Option String
  parent_base : Option (Option String)
deriving DecidableEq

/-- The `options.parent_branch` shift at the end of
`BazaarClient.parse_revision_spec`: when the option is truthy, `parent_base`
becomes the previously computed `base` and `base` is re-resolved against
`ancestor:<parent_branch>`. -/
def bzrApplyParentBranch (exec : Option String → String) (opts : BzrOptions)
    (r : BzrRevisionSpec) : BzrRevisionSpec :=
  if pyTruthyStr opts.parent_branch then
    { r with parent_base := some r.base,
             base := bzrGetRevno exec (some ("ancestor:" ++ opts.parent_branch.getD "")) }
  else r

/-- `BazaarClient.parse_revision_spec`. -/
def bzrParseRevisionSpec (exec : Option String → String) (opts : BzrOptions)
    (revisions : List String) : Except ScmError BzrRevisionSpec :=
  if revisions.length = 0 then
    .ok (bzrApplyParentBranch exec opts
      { base := bzrGetRevno exec (some "ancestor:"),
        tip := bzrGetRevno exec none,
        parent_base := none })
  else if revisions.length = 1 ∨ revisions.length = 2 then
    let revisions2 := if revisions.length = 1 then bzrSplitRevSep (revisions.headD "") else revisions
    if revisions2.length = 1 then
      .ok (bzrApplyParentBranch exec opts
        { base := bzrGetRevno exec (some ("before:" ++ revisions2.headD "")),
          tip := bzrGetRevno exec (some (revisions2.headD "")),
          parent_base := none })
    else if revisions2.length = 2 then
      .ok (bzrApplyParentBranch exec opts
        { base := bzrGetRevno exec (some (revisions2.headD "")),
          tip := bzrGetRevno exec (some (revisions2.getD 1 "")),
          parent_base := none })
    else .error .tooManyRevisions
  else .error .tooManyRevisions

/-- The dictionary returned by `MercurialClient.parse_revision_spec`: both
keys are always assigned plain strings; the `parent_base` assignment in the
source is commented out, so the key is never present. -/
structure HgRevisionSpec where
  base : String
  tip : String
  parent_base : Option String
deriving DecidableEq

/-- The subprocess outputs consumed by `MercurialClient.parse_revision_spec`:
`identify` is the output of `hg identify -i --hidden -r <rev>` (`none` on
ignored error), `parentsTemplateOut` the output of
`hg parents --hidden -r <tip> --template` for a given tip, and `bottomTop`
the pair returned by `_get_bottom_and_top_outgoing_revs_for_remote`. -/
structure HgEnv where
  identify : String → Option String
  parentsTemplateOut : String → String
  bottomTop : Option Int × Option Int

/-- `MercurialClient._identify_revision`: `None` output raises
`InvalidRevisionSpecError`; otherwise the first whitespace-separated word is
returned (indexing an empty split raises `IndexError`). -/
def hgIdentifyRevision (identify : String → Option String) (revision : String) :
    Except ScmError String :=
  match identify revision with
  | none => .error .invalidRevisionSpec
  | some out =>
    match (pySplitWs out.data []).head? with
    | some w => .ok (String.mk w)
    | none => .error .indexError

/-- Assembling the result dictionary from two resolved revisions, propagating
the first error (`base` is resolved before `tip`, as in the source). -/
def hgSpecFrom (base tip : Except ScmError String) : Except ScmError HgRevisionSpec :=
  base.bind fun b => tip.map fun t => { base := b, tip := t, parent_base := none }

/-- The one-revision case's base lookup:
`self._execute(['hg', 'parents', ...]).split()[0]` — the first
whitespace-separated word of the parents-template output, raising
`IndexError` when the output has no words. -/
def hgBaseFromParents (parentsOut tip : String) : Except ScmError HgRevisionSpec :=
  match (pySplitWs parentsOut.data []).head? with
  | some w => .ok { base := String.mk w, tip := tip, parent_base := none }
  | none => .error .indexError

/-- `MercurialClient.parse_revision_spec`. -/
def hgParseRevisionSpec (env : HgEnv) (revisions : List String) :
    Except ScmError HgRevisionSpec :=
  let revisions2 := if revisions.length = 1 then hgSplitRevRange (revisions.headD "") else revisions
  if revisions2.length = 0 then
    match env.bottomTop with
    | (some bottom, some top) =>
      hgSpecFrom (hgIdentifyRevision env.identify (toString bottom))
        (hgIdentifyRevision env.identify (toString top))
    | _ => .error .invalidRevisionSpec
  else if revisions2.length = 1 then
    (hgIdentifyRevision env.identify (revisions2.headD "")).bind fun tip =>
      hgBaseFromParents (env.parentsTemplateOut tip) tip
  else if revisions2.length = 2 then
    hgSpecFrom (hgIdentifyRevision env.identify (revisions2.headD ""))
      (hgIdentifyRevision env.identify (revisions2.getD 1 ""))
  else .error .tooManyRevisions

/-! ## Theorems for C3, C4, C5, C9 -/

/-- C3 counterexample: with the Bazaar parent-branch override set, a two-token
parse does not return the resolved tokens with no `parent_base` key: the key
is added and `base` is re-resolved against the override's ancestor. -/
theorem c3_counterexample :
    bzrParseRevisionSpec (fun _ => "7") ⟨some "pb"⟩ ["1", "2"] ≠
      Except.ok ⟨bzrGetRevno (fun _ => "7") (some "1"),
                 bzrGetRevno (fun _ => "7") (some "2"), none⟩ := by
  decide

/-- C3 (amended): for every valid two-token revision list, the Mercurial
adapter returns `base`/`tip` equal to the resolved identities of tokens 0
and 1 with no `parent_base` key, and the Bazaar adapter does the same with
`base`/`tip` the `_get_revno` resolutions of tokens 0 and 1 provided its
parent-branch override option is unset. -/
theorem c3_two_token_amended :
    (∀ (env : HgEnv) (t0 t1 b t : String),
      hgIdentifyRevision env.identify t0 = .ok b →
      hgIdentifyRevision env.identify t1 = .ok t →
      hgParseRevisionSpec env [t0, t1] = .ok ⟨b, t, none⟩) ∧
    (∀ (exec : Option String → String) (opts : BzrOptions) (t0 t1 : String),
      pyTruthyStr opts.parent_branch = false →
      bzrParseRevisionSpec exec opts [t0, t1] =
        .ok ⟨bzrGetRevno exec (some t0), bzrGetRevno exec (some t1), none⟩) := by
  constructor
  · intro env t0 t1 b t h0 h1
    simp [hgParseRevisionSpec, hgSpecFrom, h0, h1, Except.bind, Except.map]
  · intro exec opts t0 t1 hfalse
    simp [bzrParseRevisionSpec, bzrApplyParentBranch, hfalse]

/-- C3 witness: the amended statement applied at concrete two-token inputs
for both adapters. -/
theorem c3_witness :
    hgParseRevisionSpec ⟨fun _ => some "id1 extra", fun _ => "p", (none, none)⟩
        ["t0", "t1"] = .ok ⟨"id1", "id1", none⟩ ∧
    bzrParseRevisionSpec (fun _ => "7") ⟨none⟩ ["1", "2"] =
      .ok ⟨bzrGetRevno (fun _ => "7") (some "1"),
           bzrGetRevno (fun _ => "7") (some "2"), none⟩ :=
  ⟨c3_two_token_amended.1 ⟨fun _ => some "id1 extra", fun _ => "p", (none, none)⟩
      "t0" "t1" "id1" "id1" (by decide) (by decide),
   c3_two_token_amended.2 (fun _ => "7") ⟨none⟩ "1" "2" (by decide)⟩

/-- C4 counterexample: when every `bzr revno` invocation prints three lines
(a shape `_get_revno` does not recognize), the Bazaar adapter returns
successfully with `base` and `tip` both null. -/
theorem c4_counterexample :
    bzrParseRevisionSpec (fun _ => "a\nb\nc") ⟨none⟩ [] =
        Except.ok ⟨none, none, none⟩ ∧
      (none : Option String).isSome = false :=
  ⟨by decide, rfl⟩

/-- Helper: a successful `hgSpecFrom` result carries no `parent_base`. -/
theorem hgSpecFrom_parent_base_none {e1 e2 : Except ScmError String} {r : HgRevisionSpec}
    (h : hgSpecFrom e1 e2 = .ok r) : r.parent_base = none := by
  cases e1 with
  | error e => simp [hgSpecFrom, Except.bind] at h
  | ok b =>
    cases e2 with
    | error e => simp [hgSpecFrom, Except.bind, Except.map] at h
    | ok t =>
      simp only [hgSpecFrom, Except.bind, Except.map, Except.ok.injEq] at h
      rw [← h]

/-- Helper: a successful one-revision result carries no `parent_base`. -/
theorem hgBaseBind_parent_base_none {e1 : Except ScmError String} {f : String → String}
    {r : HgRevisionSpec}
    (h : (e1.bind fun tip => hgBaseFromParents (f tip) tip) = .ok r) :
    r.parent_base = none := by
  cases e1 with
  | error e => simp [Except.bind] at h
  | ok t =>
    simp only [Except.bind] at h
    unfold hgBaseFromParents at h
    split at h
    · simp only [Except.ok.injEq] at h
      rw [← h]
    · simp at h

/-- C4 (amended): whenever `parse_revision_spec` returns without raising, the
`base` and `tip` keys are present; for Mercurial their values are plain
strings and `parent_base` is never present; for Bazaar `parent_base` is
present exactly when the parent-branch override option is truthy, and all
values are non-null provided every `_get_revno` query resolves to a
recognized output shape. -/
theorem c4_spec_invariant_amended :
    (∀ (env : HgEnv) (revisions : List String) (r : HgRevisionSpec),
      hgParseRevisionSpec env revisions = .ok r → r.parent_base = none) ∧
    (∀ (exec : Option String → String) (opts : BzrOptions) (revisions : List String)
      (r : BzrRevisionSpec),
      bzrParseRevisionSpec exec opts revisions = .ok r →
        r.parent_base.isSome = pyTruthyStr opts.parent_branch ∧
        ((∀ s, (bzrGetRevno exec s).isSome) →
          r.base.isSome ∧ r.tip.isSome ∧
          ∀ pb, r.parent_base = some pb → pb.isSome)) := by
  constructor
  · intro env revisions r h
    simp only [hgParseRevisionSpec] at h
    repeat' split at h
    all_goals
      first
      | exact hgSpecFrom_parent_base_none h
      | exact hgBaseBind_parent_base_none h
      | simp at h
  · intro exec opts revisions r h
    have main : ∃ s1 s2, r = bzrApplyParentBranch exec opts
        ⟨bzrGetRevno exec s1, bzrGetRevno exec s2, none⟩ := by
      simp only [bzrParseRevisionSpec] at h
      repeat' split at h
      all_goals
        first
        | (simp only [Except.ok.injEq] at h; exact ⟨_, _, h.symm⟩)
        | simp at h
    obtain ⟨s1, s2, rfl⟩ := main
    constructor
    · simp only [bzrApplyParentBranch]
      split
      · rename_i htrue
        simp [htrue]
      · rename_i hfalse
        simp only [Bool.not_eq_true] at hfalse
        simp [hfalse]
    · intro hall
      simp only [bzrApplyParentBranch]
      split
      · refine ⟨hall _, hall _, ?_⟩
        intro pb hpb
        simp only [Option.some.injEq] at hpb
        rw [← hpb]
        exact hall _
      · refine ⟨hall _, hall _, ?_⟩
        intro pb hpb
        simp at hpb

/-- C4 witness: the amended statement applied at concrete inputs, on the
Mercurial side and on the Bazaar side with the parent-branch option set and
an always-resolving revno oracle. -/
theorem c4_witness :
    HgRevisionSpec.parent_base ⟨"id1", "id1", none⟩ = none ∧
    (some (some "revno:7") : Option (Option String)).isSome = pyTruthyStr (some "pb") ∧
    ((some "revno:7" : Option String).isSome ∧ (some "revno:7" : Option String).isSome ∧
      ∀ pb, (some (some "revno:7") : Option (Option String)) = some pb → pb.isSome) :=
  ⟨c4_spec_invariant_amended.1 ⟨fun _ => some "id1 extra", fun _ => "p", (none, none)⟩
      ["t0", "t1"] ⟨"id1", "id1", none⟩ (by decide),
   (c4_spec_invariant_amended.2 (fun _ => "7") ⟨some "pb"⟩ ["1", "2"]
      ⟨some "revno:7", some "revno:7", some (some "revno:7")⟩ (by decide)).1,
   (c4_spec_invariant_amended.2 (fun _ => "7") ⟨some "pb"⟩ ["1", "2"]
      ⟨some "revno:7", some "revno:7", some (some "revno:7")⟩ (by decide)).2
     (fun _ => rfl)⟩

/-- C5: a single token that the adapter's revision separator splits into
exactly two non-empty parts parses the same as the corresponding two-token
list, for both adapters. -/
theorem c5_split_equivalence :
    (∀ (exec : Option String → String) (opts : BzrOptions) (tok p0 p1 : String),
      bzrSplitRevSep tok = [p0, p1] → p0 ≠ "" → p1 ≠ "" →
      bzrParseRevisionSpec exec opts [tok] = bzrParseRevisionSpec exec opts [p0, p1]) ∧
    (∀ (env : HgEnv) (tok p0 p1 : String),
      hgSplitRevRange tok = [p0, p1] → p0 ≠ "" → p1 ≠ "" →
      hgParseRevisionSpec env [tok] = hgParseRevisionSpec env [p0, p1]) := by
  constructor
  · intro exec opts tok p0 p1 hsplit _ _
    simp [bzrParseRevisionSpec, hsplit]
  · intro env tok p0 p1 hsplit _ _
    simp [hgParseRevisionSpec, hsplit]

/-- C5 witness: the equivalence applied to the concrete token `"a..b"` for
both adapters. -/
theorem c5_witness :
    bzrParseRevisionSpec (fun _ => "1") ⟨none⟩ ["a..b"] =
      bzrParseRevisionSpec (fun _ => "1") ⟨none⟩ ["a", "b"] ∧
    hgParseRevisionSpec ⟨fun _ => some "id", fun _ => "p", (none, none)⟩ ["a..b"] =
      hgParseRevisionSpec ⟨fun _ => some "id", fun _ => "p", (none, none)⟩ ["a", "b"] :=
  ⟨c5_split_equivalence.1 (fun _ => "1") ⟨none⟩ "a..b" "a" "b"
      (by decide) (by decide) (by decide),
   c5_split_equivalence.2 ⟨fun _ => some "id", fun _ => "p", (none, none)⟩ "a..b" "a" "b"
      (by decide) (by decide) (by decide)⟩

/-- C9: a single token that splits into three or more parts raises the
too-many-revisions error (not the invalid-revision-spec error) in both
adapters, exactly as an input list of three or more elements does. -/
theorem c9_too_many_revisions :
    (∀ (exec : Option String → String) (opts : BzrOptions) (tok : String),
      3 ≤ (bzrSplitRevSep tok).length →
      bzrParseRevisionSpec exec opts [tok] = .error .tooManyRevisions) ∧
    (∀ (exec : Option String → String) (opts : BzrOptions) (revisions : List String),
      3 ≤ revisions.length →
      bzrParseRevisionSpec exec opts revisions = .error .tooManyRevisions) ∧
    (∀ (env : HgEnv) (tok : String),
      3 ≤ (hgSplitRevRange tok).length →
      hgParseRevisionSpec env [tok] = .error .tooManyRevisions) ∧
    (∀ (env : HgEnv) (revisions : List String),
      3 ≤ revisions.length →
      hgParseRevisionSpec env revisions = .error .tooManyRevisions) := by
  refine ⟨?_, ?_, ?_, ?_⟩
  · intro exec opts tok h
    have h1 : (bzrSplitRevSep tok).length ≠ 1 := by omega
    have h2 : (bzrSplitRevSep tok).length ≠ 2 := by omega
    simp [bzrParseRevisionSpec, h1, h2]
  · intro exec opts revisions h
    have h0 : revisions.length ≠ 0 := by omega
    have h1 : revisions.length ≠ 1 := by omega
    have h2 : revisions.length ≠ 2 := by omega
    simp [bzrParseRevisionSpec, h0, h1, h2]
  · intro env tok h
    have h0 : (hgSplitRevRange tok).length ≠ 0 := by omega
    have h1 : (hgSplitRevRange tok).length ≠ 1 := by omega
    have h2 : (hgSplitRevRange tok).length ≠ 2 := by omega
    simp [hgParseRevisionSpec, h0, h1, h2]
  · intro env revisions h
    have h0 : revisions.length ≠ 0 := by omega
    have h1 : revisions.length ≠ 1 := by omega
    have h2 : revisions.length ≠ 2 := by omega
    simp [hgParseRevisionSpec, h0, h1, h2]

/-- C9 witness: the theorem applied to the concrete token `"a..b..c"` and the
concrete three-element list for both adapters. -/
theorem c9_witness :
    bzrParseRevisionSpec (fun _ => "1") ⟨none⟩ ["a..b..c"] = .error .tooManyRevisions ∧
    bzrParseRevisionSpec (fun _ => "1") ⟨none⟩ ["a", "b", "c"] = .error .tooManyRevisions ∧
    hgParseRevisionSpec ⟨fun _ => some "id", fun _ => "p", (none, none)⟩ ["a..b..c"] =
      .error .tooManyRevisions ∧
    hgParseRevisionSpec ⟨fun _ => some "id", fun _ => "p", (none, none)⟩ ["a", "b", "c"] =
      .error .tooManyRevisions :=
  ⟨c9_too_many_revisions.1 (fun _ => "1") ⟨none⟩ "a..b..c" (by decide),
   c9_too_many_revisions.2.1 (fun _ => "1") ⟨none⟩ ["a", "b", "c"] (by decide),
   c9_too_many_revisions.2.2.1 ⟨fun _ => some "id", fun _ => "p", (none, none)⟩
     "a..b..c" (by decide),
   c9_too_many_revisions.2.2.2 ⟨fun _ => some "id", fun _ => "p", (none, none)⟩
     ["a", "b", "c"] (by decide)⟩

/-! ## Diff generation (bazaar.py lines 176-195, mercurial.py lines 508-532) -/

/-- The dictionary built by `BazaarClient._get_diff`. -/
structure BzrDiffResult where
  diff : Option String
  parent_diff : Option String
deriving DecidableEq

/-- The command run by `BazaarClient._get_range_diff` (`'%s..%s' % (base, tip)`
formats a `None` revision as the string `"None"`). -/
def bzrDiffCmd (base tip : Option String) (files : List String) : List String :=
  ["bzr", "diff", "-q", "-r", pyFormatOpt base ++ ".." ++ pyFormatOpt tip] ++ files

/-- `BazaarClient._get_range_diff`: `diff or None` — empty command output is
normalized to `None`, non-empty output is returned unchanged. -/
def bzrGetRangeDiff (exec : List String → String) (base tip : Option String)
    (files : List String) : Option String :=
  let diff := exec (bzrDiffCmd base tip files)
  if diff = "" then none else some diff

/-- `BazaarClient._get_diff`. -/
def bzrGetDiff (exec : List String → String) (revisions : BzrRevisionSpec)
    (files : List String) : BzrDiffResult :=
  { diff := bzrGetRangeDiff exec revisions.base revisions.tip files,
    parent_diff :=
      match revisions.parent_base with
      | some pb => bzrGetRangeDiff exec pb revisions.base files
      | none => none }

/-- The dictionary built by `MercurialClient._diff`: the `diff` key always
holds the raw command output (a possibly empty string, modelled as
`some output`, never `none`). -/
structure HgDiffResult where
  diff : Option String
  parent_diff : Option String
  base_commit_id : String
deriving DecidableEq

/-- The two-revision diff command built by `MercurialClient._diff`
(`diff_cmd + ['-r', r1, '-r', r2]`), before the `_execute` transformation. -/
def hgDiffCmd (files : List String) (r1 r2 : String) : List String :=
  ["hg", "diff", "--hidden"] ++ files ++ ["-r", r1, "-r", r2]

/-- `MercurialClient._diff`: requires plain (`hg`) mode, runs the two-revision
diff through `_execute`, and never normalizes empty output to `None`. -/
def hgDiff (exec : List String → String) (hiddenSupported : Bool) (hgextPath : String)
    (type_ : String) (revisions : HgRevisionSpec) (files : List String) :
    Except ScmError HgDiffResult :=
  if type_ ≠ "hg" then .error .notImplemented
  else
    let diff := exec (hgExecuteCmd hiddenSupported hgextPath
      (hgDiffCmd files revisions.base revisions.tip))
    match revisions.parent_base with
    | some pb =>
      .ok { diff := some diff,
            parent_diff := some (exec (hgExecuteCmd hiddenSupported hgextPath
              (hgDiffCmd files pb revisions.base))),
            base_commit_id := pb }
    | none =>
      .ok { diff := some diff, parent_diff := none, base_commit_id := revisions.base }

/-- C2 counterexample: in the Mercurial adapter an empty diff output is not
normalized to null — the returned `diff` field holds the empty string. -/
theorem c2_counterexample :
    hgDiff (fun _ => "") true "/e" "hg" ⟨"b", "t", none⟩ [] =
        Except.ok ⟨some "", none, "b"⟩ ∧
      (some "" : Option String) ≠ none :=
  ⟨by decide, by decide⟩

/-- C2 (amended): the Bazaar adapter's `diff` field is null exactly when the
range diff command produced empty output and is the output unchanged
otherwise; the Mercurial adapter's `diff` field is always the raw output of
the range diff command, empty or not (never null). -/
theorem c2_diff_null_amended :
    (∀ (exec : List String → String) (revisions : BzrRevisionSpec) (files : List String),
      ((bzrGetDiff exec revisions files).diff = none ↔
        exec (bzrDiffCmd revisions.base revisions.tip files) = "") ∧
      (exec (bzrDiffCmd revisions.base revisions.tip files) ≠ "" →
        (bzrGetDiff exec revisions files).diff =
          some (exec (bzrDiffCmd revisions.base revisions.tip files)))) ∧
    (∀ (exec : List String → String) (hiddenSupported : Bool) (hgextPath : String)
      (revisions : HgRevisionSpec) (files : List String) (r : HgDiffResult),
      hgDiff exec hiddenSupported hgextPath "hg" revisions files = .ok r →
      r.diff = some (exec (hgExecuteCmd hiddenSupported hgextPath
        (hgDiffCmd files revisions.base revisions.tip)))) := by
  constructor
  · intro exec revisions files
    constructor
    · by_cases hd : exec (bzrDiffCmd revisions.base revisions.tip files) = "" <;>
        simp [bzrGetDiff, bzrGetRangeDiff, hd]
    · intro hne
      simp [bzrGetDiff, bzrGetRangeDiff, hne]
  · intro exec hiddenSupported hgextPath revisions files r h
    simp only [hgDiff, ne_eq, not_true_eq_false, if_false, ite_false, reduceIte] at h
    cases hpb : revisions.parent_base with
    | some pb =>
      rw [hpb] at h
      simp only [Except.ok.injEq] at h
      rw [← h]
    | none =>
      rw [hpb] at h
      simp only [Except.ok.injEq] at h
      rw [← h]

/-- C2 witness: the amended statement applied at concrete inputs — a
non-empty Bazaar diff output and an empty Mercurial diff output. -/
theorem c2_witness :
    (bzrGetDiff (fun _ => "D") ⟨some "1", some "2", none⟩ []).diff = some "D" ∧
    HgDiffResult.diff ⟨some "", none, "b"⟩ = some "" :=
  ⟨(c2_diff_null_amended.1 (fun _ => "D") ⟨some "1", some "2", none⟩ []).2 (by decide),
   c2_diff_null_amended.2 (fun _ => "") true "/e" ⟨"b", "t", none⟩ []
     ⟨some "", none, "b"⟩ (by decide)⟩

/-! ## Bazaar repository discovery (bazaar.py lines 24-63) -/

/-- The four branch-path labels of `BazaarClient.BRANCH_REGEX`, in the
alternation order of the regex. -/
def branchLabels : List (List Char) :=
  ["repository branch".data, "branch root".data, "checkout root".data,
   "checkout of branch".data]

/-- Try to match `<label>: <rest-of-line>` at the current position, labels
tried in alternation order; the `.+$` group is the non-empty remainder of
the current line (a label whose remainder is empty fails, and the engine
backtracks to the next alternative). -/
def tryLabels : List (List Char) → List Char → Option (List Char)
  | [], _ => none
  | lab :: labs, cs =>
    let pre := lab ++ [':', ' ']
    if pre.isPrefixOf cs then
      let rest := (cs.drop pre.length).takeWhile (fun c => c ≠ '\n')
      if rest.isEmpty then tryLabels labs cs else some rest
    else tryLabels labs cs

/-- The `branch_path` group of `re.search(BRANCH_REGEX, info, re.MULTILINE)`:
the first position, scanning left to right, where some label followed by
`: ` and a non-empty line remainder matches (the leading `\w*` of the regex
can match empty, so it affects neither the reachable match positions nor
the captured group). -/
def searchBranchPath : List Char → Option (List Char)
  | [] => none
  | c :: rest =>
    match tryLabels branchLabels (c :: rest) with
    | some g => some g
    | none => searchBranchPath rest

/-- The not-a-branch marker tested by `BazaarClient.get_repository_info`. -/
def notBranchMarker : List Char :=
  "ERROR: Not a branch:".data

/-- `BazaarClient.get_repository_info`: `none` when the tool is missing or
the info output carries the not-a-branch marker; otherwise the matched
branch path (the literal `"."` replaced by the working directory) with
`base_path = "/"` and parent-diff support; a failed regex search raises
`AttributeError` (`None.group`). -/
def bzrGetRepositoryInfo (installed : Bool) (bzrInfo : String) (cwd : String) :
    Except ScmError (Option RepositoryInfo) :=
  if !installed then .ok none
  else if listContainsSub notBranchMarker bzrInfo.data then .ok none
  else
    match searchBranchPath bzrInfo.data with
    | none => .error .attributeError
    | some g =>
      let path := String.mk g
      .ok (some ⟨if path = "." then cwd else path, "/", true⟩)

/-- C7: when the matched branch path is the literal `"."` the working
directory is substituted; every successful result has `base_path = "/"` and
`supports_parent_diffs = true`; and the spec's concrete scenario holds. -/
theorem c7_bzr_repository_info :
    (∀ (info cwd : String),
      listContainsSub notBranchMarker info.data = false →
      searchBranchPath info.data = some ['.'] →
      bzrGetRepositoryInfo true info cwd = .ok (some ⟨cwd, "/", true⟩)) ∧
    (∀ (info cwd : String) (r : RepositoryInfo),
      bzrGetRepositoryInfo true info cwd = .ok (some r) →
      r.base_path = "/" ∧ r.supports_parent_diffs = true) ∧
    bzrGetRepositoryInfo true "repository branch: ." "/home/u/proj" =
      .ok (some ⟨"/home/u/proj", "/", true⟩) := by
  refine ⟨?_, ?_, ?_⟩
  · intro info cwd hmarker hsearch
    have hdot : (String.mk ['.'] : String) = "." := rfl
    simp [bzrGetRepositoryInfo, hmarker, hsearch, hdot]
  · intro info cwd r h
    simp only [bzrGetRepositoryInfo, Bool.not_true, Bool.false_eq_true, if_false,
      reduceIte] at h
    split at h
    · simp at h
    · split at h
      · simp at h
      · simp only [Except.ok.injEq, Option.some.injEq] at h
        rw [← h]
        exact ⟨rfl, rfl⟩
  · decide

/-- C7 witness: the dot-substitution statement applied at the spec's concrete
scenario. -/
theorem c7_witness :
    listContainsSub notBranchMarker "repository branch: .".data = false ∧
    searchBranchPath "repository branch: .".data = some ['.'] ∧
    bzrGetRepositoryInfo true "repository branch: ." "/home/u/proj" =
      .ok (some ⟨"/home/u/proj", "/", true⟩) :=
  ⟨by decide, by decide,
   c7_bzr_repository_info.1 "repository branch: ." "/home/u/proj" (by decide) (by decide)⟩

/-! ## Mercurial outgoing top and bottom revisions (mercurial.py lines 447-470) -/

/-- Python `max(list)` (meaningful only for non-empty lists; the empty case
raises in Python and is never reached by the source). -/
def pyListMax : List Int → Int
  | [] => 0
  | a :: rest => rest.foldl max a

/-- Python `min(list)` (meaningful only for non-empty lists). -/
def pyListMin : List Int → Int
  | [] => 0
  | a :: rest => rest.foldl min a

/-- The external parents of a changeset: the parent revision numbers reported
for `rev` (the `parents` oracle models the `hg log --template {parents}`
call together with the regex split and int conversion) that are not
themselves in the outgoing list. -/
def revExternalParents (parents : Int → List Int) (outgoing : List Int) (rev : Int) :
    List Int :=
  (parents rev).filter (fun p => !(outgoing.contains p))

/-- The scan loop of `_get_top_and_bottom_outgoing_revs`: the accumulator is
the current `bottom_rev`; the first changeset with an external parent takes
that parent (`parents[0]`) and breaks, and every other iteration sets
`bottom_rev = rev - 1`. -/
def findBottomRev (parents : Int → List Int) (outgoing : List Int) :
    List Int → Int → Int
  | [], bottom => bottom
  | rev :: rest, _ =>
    match revExternalParents parents outgoing rev with
    | p :: _ => p
    | [] => findBottomRev parents outgoing rest (rev - 1)

/-- `MercurialClient._get_top_and_bottom_outgoing_revs`: the list is scanned
via `reversed(outgoing_changesets)` starting from `bottom_rev = min`, and
the final bottom is clamped with `max(0, bottom_rev)`. -/
def getTopAndBottomOutgoingRevs (parents : Int → List Int) (outgoing : List Int) :
    Int × Int :=
  let top := pyListMax outgoing
  let bottom := findBottomRev parents outgoing outgoing.reverse (pyListMin outgoing)
  (top, max 0 bottom)

/-- The bottom-revision rule as the amended claim states it: scanning the
outgoing changesets from most recent to least recent, the first changeset
with an external parent fixes the bottom to that parent; with no such
changeset the bottom defaults to the least recent (minimum) outgoing
revision minus one; the result is clamped at zero. -/
def refineBottomSpec (parents : Int → List Int) (outgoing : List Int) : Int :=
  match outgoing.reverse.find?
      (fun rev => !(revExternalParents parents outgoing rev).isEmpty) with
  | some rev => max 0 ((revExternalParents parents outgoing rev).headD 0)
  | none => max 0 (pyListMin outgoing - 1)

/-- Helper: the scan loop returns the first external parent found, and
otherwise one less than the last revision scanned (the initial accumulator
when nothing is scanned). -/
theorem findBottomRev_eq (parents : Int → List Int) (outgoing : List Int) :
    ∀ (l : List Int) (b : Int),
      findBottomRev parents outgoing l b =
        match l.find? (fun rev => !(revExternalParents parents outgoing rev).isEmpty) with
        | some rev => (revExternalParents parents outgoing rev).headD 0
        | none => l.getLastD (b + 1) - 1 := by
  intro l
  induction l with
  | nil =>
    intro b
    simp [findBottomRev]
  | cons rev rest ih =>
    intro b
    cases hext : revExternalParents parents outgoing rev with
    | nil =>
      have hstep : findBottomRev parents outgoing (rev :: rest) b =
          findBottomRev parents outgoing rest (rev - 1) := by
        simp [findBottomRev, hext]
      rw [hstep, ih (rev - 1), List.find?_cons_of_neg _ (by simp [hext]),
        List.getLastD_cons]
      have hcancel : rev - 1 + 1 = rev := by omega
      rw [hcancel]
    | cons p ps =>
      have hstep : findBottomRev parents outgoing (rev :: rest) b = p := by
        simp [findBottomRev, hext]
      rw [hstep, List.find?_cons_of_pos _ (by simp [hext])]
      simp [hext]

/-- Helper: folding `min` over elements all at least `a` keeps `a`. -/
theorem foldl_min_eq_self : ∀ (l : List Int) (a : Int), (∀ x ∈ l, a ≤ x) →
    l.foldl min a = a := by
  intro l
  induction l with
  | nil => intro a _; rfl
  | cons x xs ih =>
    intro a h
    simp only [List.foldl_cons]
    rw [min_eq_left (h x (by simp))]
    exact ih a (fun y hy => h y (by simp [hy]))

/-- Helper: the minimum of a sorted non-empty list is its head. -/
theorem pyListMin_of_sorted (a : Int) (rest : List Int)
    (hsorted : (a :: rest).Sorted (· ≤ ·)) : pyListMin (a :: rest) = a := by
  have hall : ∀ x ∈ rest, a ≤ x := (List.sorted_cons.mp hsorted).1
  simpa [pyListMin] using foldl_min_eq_self rest a hall

/-- C1 counterexample: with outgoing changesets `[1, 2]` and empty reported
parent lists (as `hg`'s `{parents}` template emits for trivial parents), the
scan falls through and the code's bottom is `min - 1 = 0`, not
`top - 1 = 1` as the claim states. -/
theorem c1_counterexample :
    getTopAndBottomOutgoingRevs (fun _ => []) [1, 2] ≠
      (pyListMax [1, 2], max 0 (pyListMax [1, 2] - 1)) := by
  decide

/-- C1 (amended): for a non-empty ascending outgoing list, the result is the
maximum outgoing revision paired with the claim's bottom rule, except that
the fallthrough default is the minimum outgoing revision minus one (clamped
at zero), not `top - 1`. -/
theorem c1_top_bottom_amended (parents : Int → List Int) (outgoing : List Int)
    (hne : outgoing ≠ []) (hsorted : outgoing.Sorted (· ≤ ·)) :
    getTopAndBottomOutgoingRevs parents outgoing =
      (pyListMax outgoing, refineBottomSpec parents outgoing) := by
  cases outgoing with
  | nil => exact absurd rfl hne
  | cons a rest =>
    unfold getTopAndBottomOutgoingRevs refineBottomSpec
    rw [findBottomRev_eq]
    cases hf : (a :: rest).reverse.find?
        (fun rev => !(revExternalParents parents (a :: rest) rev).isEmpty) with
    | some rev => simp [hf]
    | none =>
      simp only [hf]
      have hlast : (a :: rest).reverse.getLastD (pyListMin (a :: rest) + 1) = a := by
        rw [List.reverse_cons]
        exact List.getLastD_concat _ _ _
      rw [hlast, pyListMin_of_sorted a rest hsorted]

/-- C1 witness: the amended statement applied to a concrete sorted outgoing
list where the most recent changeset has the external parent 7. -/
theorem c1_witness :
    ([2, 3] : List Int) ≠ [] ∧ ([2, 3] : List Int).Sorted (· ≤ ·) ∧
    getTopAndBottomOutgoingRevs (fun r => if r = 3 then [7] else []) [2, 3] =
      (pyListMax [2, 3], refineBottomSpec (fun r => if r = 3 then [7] else []) [2, 3]) :=
  ⟨by decide, by decide,
   c1_top_bottom_amended (fun r => if r = 3 then [7] else []) [2, 3]
     (by decide) (by decide)⟩

/-! ## Mercurial outgoing-changeset parsing (mercurial.py lines 408-445) -/

/-- The transport-layer warning marker skipped by
`_get_outgoing_changesets`. -/
def warningLinePrefix : List Char :=
  "warning: ".data

/-- Processing of one `\n\n`-separated chunk of the outgoing template output:
blank chunks and all-warning chunks are skipped (`ok none`); a two-line
chunk strips the `b:`/`r:` markers, substitutes `default` for an empty
branch name, and accepts the changeset (`ok (some rev)`) exactly when the
branch matches the current branch and the revision token is purely numeric;
any other line count fails the tuple unpacking (`ValueError`). -/
def processOutgoingPair (currentBranch : List Char) (pair : List Char) :
    Except ScmError (Option Int) :=
  let stripped := stripChars pair
  if stripped.isEmpty then .ok none
  else
    let parts := (splitLines stripped []).filter (fun l => !(warningLinePrefix.isPrefixOf l))
    match parts with
    | [] => .ok none
    | [branch, rev] =>
      let branchName0 := stripChars (branch.drop 2)
      let branchName := if branchName0.isEmpty then "default".data else branchName0
      let revno := rev.drop 2
      if branchName = currentBranch ∧ isDigitList revno then
        .ok (some (digitsToInt revno))
      else .ok none
    | _ => .error .valueError

/-- The accumulation loop of `_get_outgoing_changesets` over the
`\n\n`-separated chunks (an exception part-way through aborts the whole
call, as in Python). -/
def collectOutgoing (currentBranch : List Char) :
    List (List Char) → Except ScmError (List Int)
  | [] => .ok []
  | pair :: rest =>
    match processOutgoingPair currentBranch pair with
    | .error e => .error e
    | .ok none => collectOutgoing currentBranch rest
    | .ok (some rev) => (collectOutgoing currentBranch rest).map (fun l => rev :: l)

/-- `MercurialClient._get_outgoing_changesets`, given the current branch name
and the raw template output of `hg -q outgoing`. -/
def getOutgoingChangesets (currentBranch rawOutgoing : String) :
    Except ScmError (List Int) :=
  collectOutgoing currentBranch.data (splitPairs rawOutgoing.data [])

/-- Helper: `dropWhile` leaves a list whose head is not whitespace. -/
theorem dropWhile_isPySpace_eq_self (l : List Char)
    (h : ∀ c, l.head? = some c → isPySpace c = false) :
    l.dropWhile isPySpace = l := by
  cases l with
  | nil => rfl
  | cons c rest =>
    have hc := h c rfl
    simp [List.dropWhile_cons, hc]

/-- Helper: a newline-free chunk is a single line. -/
theorem splitLines_no_nl : ∀ (cs : List Char), '\n' ∉ cs →
    ∀ acc, splitLines cs acc = [acc.reverse ++ cs] := by
  intro cs
  induction cs with
  | nil => intro _ acc; simp [splitLines]
  | cons c rest ih =>
    intro h acc
    have hc : ¬(c = '\n') := fun hh => h (by simp [hh])
    simp only [splitLines]
    rw [if_neg hc, ih (fun hm => h (List.mem_cons_of_mem _ hm)) (c :: acc)]
    simp

/-- Helper: splitting a newline-free chunk followed by a blank separator. -/
theorem splitPairs_append_blank : ∀ (cs : List Char), '\n' ∉ cs →
    ∀ acc, splitPairs (cs ++ ['\n', '\n']) acc = [acc.reverse ++ cs, []] := by
  intro cs
  induction cs with
  | nil => intro _ acc; simp [splitPairs]
  | cons c rest ih =>
    intro h acc
    have hc : ¬(c = '\n') := fun hh => h (by simp [hh])
    have h' : '\n' ∉ rest := fun hm => h (List.mem_cons_of_mem _ hm)
    cases rest with
    | nil => simp [splitPairs, hc]
    | cons d rest2 =>
      have hstep : splitPairs ((c :: d :: rest2) ++ ['\n', '\n']) acc =
          splitPairs ((d :: rest2) ++ ['\n', '\n']) (c :: acc) := by
        simp [splitPairs, hc]
      rw [hstep, ih h' (c :: acc)]
      simp

/-- Helper: string equality is character-data equality. -/
theorem string_eq_iff_data (s t : String) : s = t ↔ s.data = t.data := by
  constructor
  · intro h; rw [h]
  · intro h
    cases s with
    | mk d1 =>
      cases t with
      | mk d2 => exact congrArg String.mk h

/-- C10: an outgoing changeset emitted with an empty branch field (template
chunk `b:\nr:<tok>`) is assigned the branch name `default`, so it enters the
outgoing list exactly when the current branch is named `default` and its
revision token is purely numeric. -/
theorem c10_empty_branch_default (current revTok : String)
    (h : ∀ c ∈ revTok.data, isPySpace c = false) :
    getOutgoingChangesets current ("b:\nr:" ++ revTok ++ "\n\n") =
      .ok (if current = "default" ∧ isDigitList revTok.data
           then [digitsToInt revTok.data] else []) := by
  have hnl : '\n' ∉ revTok.data := by
    intro hm
    have hsp := h '\n' hm
    simp [isPySpace] at hsp
  have hdata : ("b:\nr:" ++ revTok ++ "\n\n").data =
      'b' :: ':' :: '\n' :: 'r' :: ':' :: (revTok.data ++ ['\n', '\n']) := by
    have h1 : ("b:\nr:" : String).data = ['b', ':', '\n', 'r', ':'] := rfl
    have h2 : ("\n\n" : String).data = ['\n', '\n'] := rfl
    rw [String.data_append, String.data_append, h1, h2]
    simp
  have hpairs : splitPairs
      ('b' :: ':' :: '\n' :: 'r' :: ':' :: (revTok.data ++ ['\n', '\n'])) [] =
      ['b' :: ':' :: '\n' :: 'r' :: ':' :: revTok.data, []] := by
    have hmid : ∀ acc, splitPairs (':' :: (revTok.data ++ ['\n', '\n'])) acc =
        [acc.reverse ++ ':' :: revTok.data, []] := by
      intro acc
      cases htok : revTok.data with
      | nil => simp [splitPairs]
      | cons d t' =>
        have hstep : splitPairs (':' :: d :: (t' ++ ['\n', '\n'])) acc =
            splitPairs ((d :: t') ++ ['\n', '\n']) (':' :: acc) := by
          simp [splitPairs]
        rw [List.cons_append, hstep, splitPairs_append_blank (d :: t') (htok ▸ hnl) (':' :: acc)]
        simp
    calc splitPairs ('b' :: ':' :: '\n' :: 'r' :: ':' :: (revTok.data ++ ['\n', '\n'])) []
        = splitPairs (':' :: (revTok.data ++ ['\n', '\n'])) ['r', '\n', ':', 'b'] := by
          simp [splitPairs]
      _ = ['b' :: ':' :: '\n' :: 'r' :: ':' :: revTok.data, []] := by
          rw [hmid ['r', '\n', ':', 'b']]
          simp
  have hhead : ∀ c, ('b' :: ':' :: '\n' :: 'r' :: ':' :: revTok.data).head? = some c →
      isPySpace c = false := by
    intro c hc
    simp only [List.head?_cons, Option.some.injEq] at hc
    rw [← hc]
    rfl
  have hstrip : stripChars ('b' :: ':' :: '\n' :: 'r' :: ':' :: revTok.data) =
      'b' :: ':' :: '\n' :: 'r' :: ':' :: revTok.data := by
    unfold stripChars
    rw [dropWhile_isPySpace_eq_self _ hhead]
    have hrev : ('b' :: ':' :: '\n' :: 'r' :: ':' :: revTok.data).reverse =
        revTok.data.reverse ++ [':', 'r', '\n', ':', 'b'] := by simp
    rw [hrev, dropWhile_isPySpace_eq_self _ ?hd, ← hrev, List.reverse_reverse]
    case hd =>
      intro c hc
      cases htr : revTok.data.reverse with
      | nil =>
        rw [htr] at hc
        simp only [List.nil_append, List.head?_cons, Option.some.injEq] at hc
        rw [← hc]
        rfl
      | cons x xs =>
        rw [htr] at hc
        simp only [List.cons_append, List.head?_cons, Option.some.injEq] at hc
        have hx : x ∈ revTok.data := by
          have hx0 : x ∈ revTok.data.reverse := by rw [htr]; simp
          simpa [List.mem_reverse] using hx0
        rw [← hc]
        exact h x hx
  have hlines : splitLines ('b' :: ':' :: '\n' :: 'r' :: ':' :: revTok.data) [] =
      [['b', ':'], 'r' :: ':' :: revTok.data] := by
    have hnl2 : '\n' ∉ 'r' :: ':' :: revTok.data := by
      simp [hnl]
    have h1 : splitLines ('b' :: ':' :: '\n' :: 'r' :: ':' :: revTok.data) [] =
        ['b', ':'] :: splitLines ('r' :: ':' :: revTok.data) [] := by
      simp [splitLines]
    rw [h1, splitLines_no_nl _ hnl2 []]
    simp
  have hw1 : warningLinePrefix.isPrefixOf ['b', ':'] = false := rfl
  have hw2 : warningLinePrefix.isPrefixOf ('r' :: ':' :: revTok.data) = false := rfl
  have hpair : processOutgoingPair current.data
      ('b' :: ':' :: '\n' :: 'r' :: ':' :: revTok.data) =
      .ok (if "default".data = current.data ∧ isDigitList revTok.data
           then some (digitsToInt revTok.data) else none) := by
    simp only [processOutgoingPair]
    rw [hstrip]
    simp only [List.isEmpty_cons, Bool.false_eq_true, if_false]
    rw [hlines]
    simp only [List.filter_cons, hw1, hw2, Bool.not_false, if_true, List.filter_nil]
    simp [stripChars]
    split <;> rfl
  have hcond : ("default".data = current.data) ↔ (current = "default") := by
    rw [string_eq_iff_data current "default"]
    constructor <;> (intro hh; exact hh.symm)
  have hempty : processOutgoingPair current.data [] = .ok none := rfl
  unfold getOutgoingChangesets
  rw [hdata, hpairs]
  simp only [collectOutgoing, hpair, hempty]
  by_cases hc : current = "default" ∧ isDigitList revTok.data
  · have hc' : "default".data = current.data ∧ isDigitList revTok.data :=
      ⟨hcond.mpr hc.1, hc.2⟩
    rw [if_pos hc', if_pos hc]
    rfl
  · have hc' : ¬("default".data = current.data ∧ isDigitList revTok.data) := by
      intro hcc
      exact hc ⟨hcond.mp hcc.1, hcc.2⟩
    rw [if_neg hc', if_neg hc]

/-- C10 witness: the theorem applied to the concrete token `"12"` on branch
`default`, and to the same token on branch `other`. -/
theorem c10_witness :
    getOutgoingChangesets "default" ("b:\nr:" ++ "12" ++ "\n\n") =
      .ok (if ("default" : String) = "default" ∧ isDigitList ("12" : String).data
           then [digitsToInt ("12" : String).data] else []) ∧
    getOutgoingChangesets "other" ("b:\nr:" ++ "12" ++ "\n\n") =
      .ok (if ("other" : String) = "default" ∧ isDigitList ("12" : String).data
           then [digitsToInt ("12" : String).data] else []) :=
  ⟨c10_empty_branch_default "default" "12" (by decide),
   c10_empty_branch_default "other" "12" (by decide)⟩

end Rbtools
